import Mathlib

/-!
Verification of the core logic of the Flix2030/Home flashcard application
(file src/fix-learn/App.tsx), shallowly embedded in Lean.

The two verified subsystems are the study-session queue engine
(handleCardSwipe / handleUndo / the completion condition) and the profile
merge engine (mergeData / processProfileFile / handleImportDeck /
handleDeleteDeck).  JavaScript arrays become Lean lists, objects become
structures, `Math.random()`-derived offsets become explicit parameters,
and `Math.max(0, n - 1)` on a non-negative counter becomes truncated
natural subtraction.
-/

namespace FixLearn

/-- Swipe directions, from types.ts (`enum SwipeDirection`). -/
inductive SwipeDirection where
  | LEFT
  | RIGHT
  | UP
deriving DecidableEq, Repr

/-- Card status values, from types.ts (`status` union type of `Flashcard`). -/
inductive CardStatus where
  | fresh
  | known
  | unknown
  | halfKnown
deriving DecidableEq, Repr

/-- `Flashcard` from types.ts.  `nextReview` is an optional timestamp. -/
structure Flashcard where
  id : String
  term : String
  definition : String
  exampleSentence : String
  status : CardStatus
  nextReview : Option Nat := none
deriving DecidableEq, Repr

/-- `StudyCard` from App.tsx: `Flashcard & \x7b isRetry?: boolean \x7d`.
The absent field and `false` are interchangeable in the code (the flag is
only ever tested for truthiness), so it is modelled as a `Bool`. -/
structure StudyCard extends Flashcard where
  isRetry : Bool := false
deriving DecidableEq, Repr

/-- One entry of `sessionHistory` in the `StudySession` component:
`\x7b card, action, insertedAt \x7d`. -/
structure SessionEntry where
  card : StudyCard
  action : SwipeDirection
  insertedAt : Option Nat
deriving DecidableEq, Repr

/-- The mutable state of one study session: `studyQueue`, `sessionHistory`
and `correctCount` from the `StudySession` component. -/
structure SessionState where
  studyQueue : List StudyCard
  sessionHistory : List SessionEntry
  correctCount : Nat
deriving DecidableEq, Repr

/-- `handleCardSwipe` from App.tsx (lines 914-940).  The random offset
`Math.floor(Math.random() * 11)` of the LEFT branch is passed in as the
parameter `r` (a uniformly random integer in 0..10); `splice(i, 0, x)`
is `List.insertIdx i x`. -/
def handleCardSwipe (s : SessionState) (dir : SwipeDirection) (r : Nat) : SessionState :=
  match s.studyQueue with
  | [] => s
  | currentCard :: remainingQueue =>
    match dir with
    | SwipeDirection.LEFT =>
        let retryCard : StudyCard := { currentCard with isRetry := true }
        let offset := 5 + r
        let insertedAt := min remainingQueue.length offset
        { studyQueue := remainingQueue.insertIdx insertedAt retryCard
          sessionHistory := s.sessionHistory ++
            [{ card := currentCard, action := SwipeDirection.LEFT, insertedAt := some insertedAt }]
          correctCount := s.correctCount }
    | SwipeDirection.UP =>
        let retryCard : StudyCard := { currentCard with isRetry := true }
        let offset := 20
        let insertedAt := min remainingQueue.length offset
        { studyQueue := remainingQueue.insertIdx insertedAt retryCard
          sessionHistory := s.sessionHistory ++
            [{ card := currentCard, action := SwipeDirection.UP, insertedAt := some insertedAt }]
          correctCount := s.correctCount }
    | SwipeDirection.RIGHT =>
        { studyQueue := remainingQueue
          sessionHistory := s.sessionHistory ++
            [{ card := currentCard, action := SwipeDirection.RIGHT, insertedAt := none }]
          correctCount := s.correctCount + 1 }

/-- `handleUndo` from App.tsx (lines 942-962).  The pair
`findIndex` / `splice(i, 1)` (with the `-1` guard) is exactly
`List.eraseP` (remove the first element whose id matches, no-op when none
does); `Math.max(0, prev - 1)` on the non-negative counter is truncated
subtraction on `Nat`. -/
def handleUndo (s : SessionState) : SessionState :=
  match s.sessionHistory.getLast? with
  | none => s
  | some lastAction =>
      let newHistory := s.sessionHistory.dropLast
      let newCorrect :=
        match lastAction.action with
        | SwipeDirection.RIGHT => s.correctCount - 1
        | _ => s.correctCount
      let cleared :=
        match lastAction.insertedAt with
        | some _ => s.studyQueue.eraseP (fun c => c.id == lastAction.card.id)
        | none => s.studyQueue
      { studyQueue := lastAction.card :: cleared
        sessionHistory := newHistory
        correctCount := newCorrect }

/-- A sequence of swipes, each with its own random LEFT-offset draw. -/
def swipeSeq (s : SessionState) : List (SwipeDirection × Nat) → SessionState
  | [] => s
  | (d, r) :: rest => swipeSeq (handleCardSwipe s d r) rest

/-- `n` successive presses of the undo button. -/
def undoN (s : SessionState) : Nat → SessionState
  | 0 => s
  | n + 1 => handleUndo (undoN s n)

/-- Decides that every swipe of the run is performed on a non-empty queue. -/
def nonemptyRun (s : SessionState) : List (SwipeDirection × Nat) → Bool
  | [] => true
  | (d, r) :: rest => !s.studyQueue.isEmpty && nonemptyRun (handleCardSwipe s d r) rest

/-- The three screens the `StudySession` component can render. -/
inductive SessionScreen where
  | finished
  | loading
  | active
deriving DecidableEq, Repr

/-- The render dispatch of `StudySession` (App.tsx lines 964-986):
`studyQueue.length === 0 && correctCount > 0` shows the completion screen,
an empty queue otherwise shows the loading placeholder. -/
def sessionScreen (s : SessionState) : SessionScreen :=
  if s.studyQueue.length = 0 ∧ 0 < s.correctCount then SessionScreen.finished
  else if s.studyQueue.length = 0 then SessionScreen.loading
  else SessionScreen.active

/-- `User` from types.ts (the optional avatar is irrelevant to the core). -/
structure User where
  id : String
  name : String
  email : String
deriving DecidableEq, Repr

/-- `Deck` from types.ts. -/
structure Deck where
  id : String
  authorId : String
  name : String
  cards : List Flashcard
  createdAt : Nat
deriving DecidableEq, Repr

/-- `Course` from types.ts. -/
structure Course where
  id : String
  name : String
  description : String
  authorId : String
  memberIds : List String
  deckIds : List String
  createdAt : Nat
deriving DecidableEq, Repr

/-- `Folder` from types.ts. -/
structure Folder where
  id : String
  name : String
  authorId : String
  deckIds : List String
  createdAt : Nat
deriving DecidableEq, Repr

/-- The `action` union type of `HistoryEntry` in types.ts. -/
inductive HistoryAction where
  | created
  | imported
deriving DecidableEq, Repr

/-- `HistoryEntry` from types.ts. -/
structure HistoryEntry where
  id : String
  userId : String
  deckId : String
  deckName : String
  action : HistoryAction
  timestamp : Nat
deriving DecidableEq, Repr

/-- The four entity collections held by the `App` component
(`decks`, `courses`, `folders`, `history` state). -/
structure Store where
  decks : List Deck
  courses : List Course
  folders : List Folder
  history : List HistoryEntry
deriving DecidableEq, Repr

/-- The loop body of the deck / folder / history loops of `mergeData`
(App.tsx lines 382-415): push the incoming record unless an entry with the
same id is already present. -/
def dedupStep {α : Type} (getId : α → String) (acc : List α) (d : α) : List α :=
  if acc.any (fun existing => getId existing == getId d) then acc else acc ++ [d]

/-- The deck / folder / history loops of `mergeData`: start from a copy of
the local list and run `dedupStep` over the incoming records (the check
runs against the growing list, so in-bundle duplicates are dropped too). -/
def dedupMerge {α : Type} (getId : α → String) (lcl : List α) (incoming : List α) : List α :=
  incoming.foldl (dedupStep getId) lcl

/-- The loop body of the course loop of `mergeData`: `findIndex` by id,
push when absent, overwrite in place when present. -/
def overwriteStep {α : Type} (getId : α → String) (acc : List α) (c : α) : List α :=
  match acc.findIdx? (fun existing => getId existing == getId c) with
  | none => acc ++ [c]
  | some i => acc.set i c

/-- The course loop of `mergeData`. -/
def overwriteMerge {α : Type} (getId : α → String) (lcl : List α) (incoming : List α) : List α :=
  incoming.foldl (overwriteStep getId) lcl

/-- `mergeData` from App.tsx (lines 382-415), acting on the four
collections of the store. -/
def mergeData (store : Store) (newDecks : List Deck) (newCourses : List Course)
    (newHistory : List HistoryEntry) (newFolders : List Folder) : Store :=
  { decks := dedupMerge Deck.id store.decks newDecks
    courses := overwriteMerge Course.id store.courses newCourses
    folders := dedupMerge Folder.id store.folders newFolders
    history := dedupMerge HistoryEntry.id store.history newHistory }

/-- The member-patching step of the shared-course branch of
`processProfileFile` (App.tsx lines 363-368): before merging, append the
importing user to `memberIds` unless they are the author or already a
member. -/
def prepareSharedCourseImport (currentUser : Option User) (incoming : Course) : Course :=
  match currentUser with
  | none => incoming
  | some u =>
      if !(incoming.memberIds.contains u.id) && incoming.authorId != u.id then
        { incoming with memberIds := incoming.memberIds ++ [u.id] }
      else incoming

/-- The single-deck import handler `handleImportDeck` (App.tsx lines
430-454), after JSON parsing: the truthiness guard on `id`/`name`, the
fresh id on collision (`crypto.randomUUID()` is passed in as `freshId`),
and the author rewrite for the active user.  The early return for
course-share files is dropped: it rejects inputs that are not decks. -/
def handleImportDeck (decks : List Deck) (currentUser : Option User)
    (imported : Deck) (freshId : String) : List Deck :=
  if imported.id == "" || imported.name == "" then decks
  else
    let withId :=
      if decks.any (fun d => d.id == imported.id) then { imported with id := freshId }
      else imported
    let withAuthor :=
      match currentUser with
      | some u => { withId with authorId := u.id }
      | none => withId
    decks ++ [withAuthor]

/-- `handleDeleteDeck` from App.tsx (lines 138-154): drop the deck and
filter its id out of every course and folder (the view fallback is
navigation-only and is not part of the store). -/
def handleDeleteDeck (store : Store) (deckId : String) : Store :=
  { decks := store.decks.filter (fun d => d.id != deckId)
    courses := store.courses.map
      (fun c => { c with deckIds := c.deckIds.filter (fun i => i != deckId) })
    folders := store.folders.map
      (fun f => { f with deckIds := f.deckIds.filter (fun i => i != deckId) })
    history := store.history }

/-! Concrete records used by the witnesses and counterexamples. -/

/-- A sample study card with id `a`. -/
def cardA : StudyCard :=
  { id := "a", term := "alpha", definition := "first", exampleSentence := "",
    status := CardStatus.fresh, nextReview := none, isRetry := false }

/-- A sample study card with id `b`. -/
def cardB : StudyCard :=
  { id := "b", term := "beta", definition := "second", exampleSentence := "",
    status := CardStatus.fresh, nextReview := none, isRetry := false }

/-- A session whose queue holds two distinct cards with distinct ids. -/
def stateAB : SessionState :=
  { studyQueue := [cardA, cardB], sessionHistory := [], correctCount := 0 }

/-- A session whose queue holds two cards that share the id `a`. -/
def dupState : SessionState :=
  { studyQueue := [cardA, cardA], sessionHistory := [], correctCount := 0 }

/-- A sample local deck. -/
def deckA : Deck :=
  { id := "d1", authorId := "u1", name := "Deck A", cards := [], createdAt := 0 }

/-- An incoming deck whose id collides with `deckA` but whose content differs. -/
def deckA2 : Deck :=
  { id := "d1", authorId := "u2", name := "Deck A prime", cards := [], createdAt := 5 }

/-- A second deck with a fresh id. -/
def deckB : Deck :=
  { id := "d2", authorId := "u1", name := "Deck B", cards := [], createdAt := 1 }

/-- A sample local course referencing `deckA` and `deckB`. -/
def courseA : Course :=
  { id := "c1", name := "Course A", description := "", authorId := "u1",
    memberIds := [], deckIds := ["d1", "d2"], createdAt := 0 }

/-- An incoming course whose id collides with `courseA`. -/
def courseA2 : Course :=
  { id := "c1", name := "Course A v2", description := "new", authorId := "u1",
    memberIds := ["u2"], deckIds := ["d1"], createdAt := 7 }

/-- A sample folder referencing `deckA` and `deckB`. -/
def folderA : Folder :=
  { id := "f1", name := "Folder A", authorId := "u1", deckIds := ["d1", "d2"], createdAt := 0 }

/-- A sample history entry. -/
def historyA : HistoryEntry :=
  { id := "h1", userId := "u1", deckId := "d1", deckName := "Deck A",
    action := HistoryAction.created, timestamp := 0 }

/-- A sample user. -/
def userU : User := { id := "u9", name := "User Nine", email := "u9@example.com" }

/-- A sample local store. -/
def storeA : Store :=
  { decks := [deckA], courses := [courseA], folders := [folderA], history := [historyA] }

/-! Helper lemmas for the study-queue engine. -/

lemma insertIdx_eq_take_cons_drop {α : Type} (a : α) :
    ∀ (n : Nat) (l : List α), n ≤ l.length →
      l.insertIdx n a = l.take n ++ a :: l.drop n
  | 0, l, _ => by simp
  | n + 1, [], h => by simp at h
  | n + 1, x :: xs, h => by
      have ih := insertIdx_eq_take_cons_drop a n xs (Nat.le_of_succ_le_succ h)
      simp [List.insertIdx_succ_cons, ih]

lemma eraseP_insertIdx_of_fresh (rest : List StudyCard) (cid : String)
    (retry : StudyCard) (k : Nat) (hk : k ≤ rest.length)
    (hfresh : ∀ x ∈ rest, x.id ≠ cid) (hid : retry.id = cid) :
    (rest.insertIdx k retry).eraseP (fun x => x.id == cid) = rest := by
  rw [insertIdx_eq_take_cons_drop retry k rest hk]
  rw [List.eraseP_append_right]
  · rw [List.eraseP_cons_of_pos (by simp [hid])]
    exact List.take_append_drop k rest
  · intro b hb
    simp only [Bool.not_eq_true, beq_eq_false_iff_ne, ne_eq]
    exact hfresh b (List.take_subset k rest hb)

lemma ids_insertIdx (rest : List StudyCard) (retry : StudyCard) (k : Nat)
    (hk : k ≤ rest.length) :
    (rest.insertIdx k retry).map (fun x => x.id)
      = ((rest.map (fun x => x.id)).take k) ++ retry.id :: ((rest.map (fun x => x.id)).drop k) := by
  rw [insertIdx_eq_take_cons_drop retry k rest hk]
  simp [List.map_take, List.map_drop]

lemma nodup_ids_insertIdx (rest : List StudyCard) (cid : String)
    (retry : StudyCard) (k : Nat) (hk : k ≤ rest.length) (hid : retry.id = cid)
    (hnd : (cid :: rest.map (fun x => x.id)).Nodup) :
    ((rest.insertIdx k retry).map (fun x => x.id)).Nodup := by
  rw [ids_insertIdx rest retry k hk, hid, List.nodup_middle,
      List.take_append_drop]
  exact hnd

lemma nodup_ids_handleCardSwipe (s : SessionState) (d : SwipeDirection) (r : Nat)
    (hnd : (s.studyQueue.map (fun x => x.id)).Nodup) :
    ((handleCardSwipe s d r).studyQueue.map (fun x => x.id)).Nodup := by
  cases hq : s.studyQueue with
  | nil => simp [handleCardSwipe, hq]
  | cons c rest =>
      rw [hq, List.map_cons] at hnd
      cases d with
      | LEFT =>
          simp only [handleCardSwipe, hq]
          exact nodup_ids_insertIdx rest c.id _ _ (Nat.min_le_left _ _) rfl hnd
      | UP =>
          simp only [handleCardSwipe, hq]
          exact nodup_ids_insertIdx rest c.id _ _ (Nat.min_le_left _ _) rfl hnd
      | RIGHT =>
          simp only [handleCardSwipe, hq]
          exact hnd.of_cons

lemma handleUndo_handleCardSwipe (s : SessionState) (d : SwipeDirection) (r : Nat)
    (hq : s.studyQueue ≠ [])
    (hnd : (s.studyQueue.map (fun x => x.id)).Nodup) :
    handleUndo (handleCardSwipe s d r) = s := by
  obtain ⟨queue, hist, cc⟩ := s
  simp only at hq hnd
  cases hqe : queue with
  | nil => exact absurd hqe hq
  | cons c rest =>
      subst hqe
      rw [List.map_cons, List.nodup_cons] at hnd
      have hfresh : ∀ x ∈ rest, x.id ≠ c.id := by
        intro x hx hcontra
        exact hnd.1 (hcontra ▸ List.mem_map_of_mem (fun y => y.id) hx)
      cases d with
      | RIGHT =>
          simp [handleCardSwipe, handleUndo]
      | LEFT =>
          simp only [handleCardSwipe, handleUndo, List.getLast?_concat,
            List.dropLast_concat]
          rw [eraseP_insertIdx_of_fresh rest c.id { c with isRetry := true } _
            (Nat.min_le_left _ _) hfresh rfl]
      | UP =>
          simp only [handleCardSwipe, handleUndo, List.getLast?_concat,
            List.dropLast_concat]
          rw [eraseP_insertIdx_of_fresh rest c.id { c with isRetry := true } _
            (Nat.min_le_left _ _) hfresh rfl]

lemma undoN_swipeSeq (l : List (SwipeDirection × Nat)) :
    ∀ (s : SessionState),
      nonemptyRun s l = true →
      (s.studyQueue.map (fun x => x.id)).Nodup →
      undoN (swipeSeq s l) l.length = s := by
  induction l with
  | nil => intro s _ _; rfl
  | cons p rest ih =>
      intro s hne hnd
      obtain ⟨d, r⟩ := p
      rw [nonemptyRun, Bool.and_eq_true, Bool.not_eq_true', List.isEmpty_eq_false] at hne
      have hstep := ih (handleCardSwipe s d r) hne.2 (nodup_ids_handleCardSwipe s d r hnd)
      calc undoN (swipeSeq s ((d, r) :: rest)) ((d, r) :: rest).length
          = handleUndo (undoN (swipeSeq (handleCardSwipe s d r) rest) rest.length) := rfl
        _ = handleUndo (handleCardSwipe s d r) := by rw [hstep]
        _ = s := handleUndo_handleCardSwipe s d r hne.1 hnd

/-! Helper lemmas for the profile merge engine. -/

lemma any_dedupStep {α : Type} (f : α → String) (p : α → Bool) (acc : List α) (d : α)
    (h : acc.any p = true) : (dedupStep f acc d).any p = true := by
  unfold dedupStep
  split
  · exact h
  · simp [List.any_append, h]

lemma any_dedupMerge {α : Type} (f : α → String) (p : α → Bool) :
    ∀ (N L : List α), L.any p = true → (dedupMerge f L N).any p = true := by
  intro N
  induction N with
  | nil => intro L h; exact h
  | cons d rest ih =>
      intro L h
      exact ih (dedupStep f L d) (any_dedupStep f p L d h)

lemma any_dedupMerge_of_mem {α : Type} (f : α → String) :
    ∀ (N L : List α), ∀ d ∈ N,
      (dedupMerge f L N).any (fun e => f e == f d) = true := by
  intro N
  induction N with
  | nil => intro L d hd; exact absurd hd (List.not_mem_nil d)
  | cons d0 rest ih =>
      intro L d hd
      rcases List.mem_cons.mp hd with h | h
      · subst h
        apply any_dedupMerge f _ rest
        unfold dedupStep
        split
        · assumption
        · simp [List.any_append]
      · exact ih (dedupStep f L d0) d h

lemma dedupMerge_eq_self {α : Type} (f : α → String) :
    ∀ (N L : List α),
      (∀ d ∈ N, L.any (fun e => f e == f d) = true) → dedupMerge f L N = L := by
  intro N
  induction N with
  | nil => intro L _; rfl
  | cons d rest ih =>
      intro L h
      have hstep : dedupStep f L d = L := by
        unfold dedupStep
        rw [if_pos (h d (List.mem_cons_self d rest))]
      show dedupMerge f (dedupStep f L d) rest = L
      rw [hstep]
      exact ih L (fun x hx => h x (List.mem_cons_of_mem d hx))

lemma dedupMerge_idem {α : Type} (f : α → String) (L N : List α) :
    dedupMerge f (dedupMerge f L N) N = dedupMerge f L N :=
  dedupMerge_eq_self f N (dedupMerge f L N) (any_dedupMerge_of_mem f N L)

lemma dedupMerge_append {α : Type} (f : α → String) :
    ∀ (N L : List α), ∃ t, dedupMerge f L N = L ++ t := by
  intro N
  induction N with
  | nil => intro L; exact ⟨[], (List.append_nil L).symm⟩
  | cons d rest ih =>
      intro L
      show ∃ t, dedupMerge f (dedupStep f L d) rest = L ++ t
      unfold dedupStep
      split
      · exact ih L
      · obtain ⟨t, ht⟩ := ih (L ++ [d])
        exact ⟨[d] ++ t, by rw [ht, List.append_assoc]⟩

lemma overwriteStep_nil {α : Type} (f : α → String) (c : α) :
    overwriteStep f [] c = [c] := rfl

lemma overwriteStep_cons {α : Type} (f : α → String) (a : α) (acc : List α) (c : α) :
    overwriteStep f (a :: acc) c =
      if f a == f c then c :: acc else a :: overwriteStep f acc c := by
  unfold overwriteStep
  rw [List.findIdx?_cons]
  by_cases h : (f a == f c) = true
  · simp [h]
  · rw [if_neg h, if_neg h, List.findIdx?_succ]
    cases hfi : acc.findIdx? (fun existing => f existing == f c) with
    | none => simp [hfi]
    | some i => simp [hfi]

lemma mem_overwriteStep_of_ne {α : Type} (f : α → String) (acc : List α) (c x : α)
    (hx : x ∈ acc) (hne : f x ≠ f c) : x ∈ overwriteStep f acc c := by
  induction acc with
  | nil => exact absurd hx (List.not_mem_nil x)
  | cons a rest ih =>
      rw [overwriteStep_cons]
      rcases List.mem_cons.mp hx with h | h
      · subst h
        split
        · rename_i hbeq
          exact absurd (eq_of_beq hbeq) hne
        · exact List.mem_cons_self x _
      · split
        · exact List.mem_cons_of_mem _ h
        · exact List.mem_cons_of_mem _ (ih h)

lemma ids_overwriteStep {α : Type} (f : α → String) (acc : List α) (c : α) :
    (overwriteStep f acc c).map f = acc.map f ∨
      (overwriteStep f acc c).map f = acc.map f ++ [f c] := by
  induction acc with
  | nil => right; rfl
  | cons a rest ih =>
      rw [overwriteStep_cons]
      by_cases h : (f a == f c) = true
      · left
        rw [if_pos h, List.map_cons, List.map_cons, eq_of_beq h]
      · rw [if_neg h, List.map_cons, List.map_cons]
        rcases ih with ih | ih
        · left; rw [ih]
        · right; rw [ih, List.cons_append]

lemma mem_ids_overwriteStep {α : Type} (f : α → String) (acc : List α) (c : α)
    (x : String) (hx : x ∈ acc.map f) : x ∈ (overwriteStep f acc c).map f := by
  rcases ids_overwriteStep f acc c with h | h
  · rw [h]; exact hx
  · rw [h]; exact List.mem_append_left _ hx

lemma mem_ids_overwriteMerge {α : Type} (f : α → String) :
    ∀ (N L : List α) (x : String), x ∈ L.map f → x ∈ (overwriteMerge f L N).map f := by
  intro N
  induction N with
  | nil => intro L x hx; exact hx
  | cons c rest ih =>
      intro L x hx
      exact ih (overwriteStep f L c) x (mem_ids_overwriteStep f L c x hx)

lemma mem_overwriteMerge_of_not_incoming {α : Type} (f : α → String) :
    ∀ (N L : List α) (x : α), x ∈ L → (∀ n ∈ N, f n ≠ f x) →
      x ∈ overwriteMerge f L N := by
  intro N
  induction N with
  | nil => intro L x hx _; exact hx
  | cons c rest ih =>
      intro L x hx h
      refine ih (overwriteStep f L c) x ?_ (fun n hn => h n (List.mem_cons_of_mem c hn))
      exact mem_overwriteStep_of_ne f L c x hx
        (fun hcontra => h c (List.mem_cons_self c rest) (hcontra.symm))

lemma overwriteStep_of_not_found {α : Type} (f : α → String) (L : List α) (c : α)
    (h : L.any (fun e => f e == f c) = false) : overwriteStep f L c = L ++ [c] := by
  induction L with
  | nil => rfl
  | cons a rest ih =>
      rw [List.any_cons, Bool.or_eq_false_iff] at h
      rw [overwriteStep_cons, if_neg (by rw [h.1]; exact Bool.false_ne_true), ih h.2,
        List.cons_append]

lemma overwriteStep_of_found {α : Type} (f : α → String) :
    ∀ (L : List α) (c : α), L.any (fun e => f e == f c) = true →
      ∃ i, ∃ hi : i < L.length,
        f (L.get ⟨i, hi⟩) = f c ∧ overwriteStep f L c = L.set i c ∧
          ∀ j, ∀ hj : j < L.length, j < i → f (L.get ⟨j, hj⟩) ≠ f c := by
  intro L
  induction L with
  | nil => intro c h; simp at h
  | cons a rest ih =>
      intro c h
      by_cases ha : (f a == f c) = true
      · refine ⟨0, Nat.succ_pos _, eq_of_beq ha, ?_, ?_⟩
        · rw [overwriteStep_cons, if_pos ha]; rfl
        · intro j hj hj0; exact absurd hj0 (Nat.not_lt_zero j)
      · rw [List.any_cons, Bool.or_eq_true] at h
        rcases h with h | h
        · exact absurd h ha
        · obtain ⟨i, hi, hmatch, heq, hfirst⟩ := ih c h
          refine ⟨i + 1, Nat.succ_lt_succ hi, hmatch, ?_, ?_⟩
          · rw [overwriteStep_cons, if_neg ha, heq]; rfl
          · intro j hj hji
            cases j with
            | zero =>
                intro hcontra
                exact ha (beq_iff_eq.mpr hcontra)
            | succ j0 =>
                exact hfirst j0 (Nat.lt_of_succ_lt_succ hj) (Nat.lt_of_succ_lt_succ hji)

/-! Claim theorems. -/

/-- Claim C9: swiping on an empty queue is a total no-op — the handler
returns before any mutation, so queue, transcript and correct-count are
all unchanged. -/
theorem swipe_empty_queue_noop (s : SessionState) (dir : SwipeDirection) (r : Nat)
    (h : s.studyQueue = []) : handleCardSwipe s dir r = s := by
  unfold handleCardSwipe
  rw [h]

/-- Witness for C9 at a concrete state with an empty queue. -/
theorem swipe_empty_queue_noop_witness :
    ({ studyQueue := [], sessionHistory := [], correctCount := 3 } : SessionState).studyQueue = []
    ∧ handleCardSwipe { studyQueue := [], sessionHistory := [], correctCount := 3 }
        SwipeDirection.LEFT 4
      = { studyQueue := [], sessionHistory := [], correctCount := 3 } :=
  ⟨rfl, swipe_empty_queue_noop { studyQueue := [], sessionHistory := [], correctCount := 3 }
    SwipeDirection.LEFT 4 rfl⟩

/-- Claim C8: the session is reported finished exactly when the queue is
empty and the correct-count is positive; an empty queue with zero
correct-count shows the loading screen instead. -/
theorem completion_condition (s : SessionState) :
    (sessionScreen s = SessionScreen.finished ↔ s.studyQueue = [] ∧ 0 < s.correctCount)
    ∧ (s.studyQueue = [] → s.correctCount = 0 → sessionScreen s = SessionScreen.loading) := by
  constructor
  · unfold sessionScreen
    constructor
    · intro hfin
      by_cases hc : s.studyQueue.length = 0 ∧ 0 < s.correctCount
      · exact ⟨List.length_eq_zero.mp hc.1, hc.2⟩
      · rw [if_neg hc] at hfin
        split at hfin <;> cases hfin
    · intro hc
      rw [if_pos ⟨by rw [hc.1]; rfl, hc.2⟩]
  · intro h1 h2
    unfold sessionScreen
    rw [if_neg (by rw [h2]; exact fun hc => Nat.lt_irrefl 0 hc.2),
      if_pos (by rw [h1]; rfl)]

/-- Witness for C8 at concrete finished and still-loading states. -/
theorem completion_condition_witness :
    sessionScreen { studyQueue := [], sessionHistory := [], correctCount := 2 }
      = SessionScreen.finished
    ∧ sessionScreen { studyQueue := [], sessionHistory := [], correctCount := 0 }
      = SessionScreen.loading :=
  ⟨(completion_condition { studyQueue := [], sessionHistory := [], correctCount := 2 }).1.mpr
      ⟨rfl, Nat.succ_pos 1⟩,
    (completion_condition { studyQueue := [], sessionHistory := [], correctCount := 0 }).2 rfl rfl⟩

/-- Claim C3: on a non-empty queue, swipe LEFT removes the front card and
re-inserts a copy marked `isRetry` at position `min(lengthAfterRemoval, 5 + r)`
with `r` a random integer in 0..10 (the queue decomposes as the first `k`
remaining cards, then the retry copy, then the rest), swipe UP re-inserts
at `min(lengthAfterRemoval, 20)`, and in both cases the transcript entry
records that position as `insertedAt`. -/
theorem reinsertion_positions (s : SessionState) (c : StudyCard) (rest : List StudyCard)
    (r : Nat) (_hr : r ≤ 10) (hq : s.studyQueue = c :: rest) :
    ((handleCardSwipe s SwipeDirection.LEFT r).studyQueue
        = rest.take (min rest.length (5 + r)) ++
            ({ c with isRetry := true } : StudyCard) :: rest.drop (min rest.length (5 + r))
      ∧ (handleCardSwipe s SwipeDirection.LEFT r).sessionHistory
        = s.sessionHistory ++
            [{ card := c, action := SwipeDirection.LEFT,
               insertedAt := some (min rest.length (5 + r)) }])
    ∧ ((handleCardSwipe s SwipeDirection.UP r).studyQueue
        = rest.take (min rest.length 20) ++
            ({ c with isRetry := true } : StudyCard) :: rest.drop (min rest.length 20)
      ∧ (handleCardSwipe s SwipeDirection.UP r).sessionHistory
        = s.sessionHistory ++
            [{ card := c, action := SwipeDirection.UP,
               insertedAt := some (min rest.length 20) }]) := by
  obtain ⟨queue, hist, cc⟩ := s
  simp only at hq
  subst hq
  refine ⟨⟨?_, rfl⟩, ?_, rfl⟩
  · simp only [handleCardSwipe]
    exact insertIdx_eq_take_cons_drop _ _ _ (Nat.min_le_left _ _)
  · simp only [handleCardSwipe]
    exact insertIdx_eq_take_cons_drop _ _ _ (Nat.min_le_left _ _)

/-- Witness for C3: swiping LEFT with draw `r = 2` on a concrete two-card
queue re-inserts the retry copy at position `min(1, 7) = 1`. -/
theorem reinsertion_positions_witness :
    (2 ≤ 10 ∧ stateAB.studyQueue = cardA :: [cardB])
    ∧ (handleCardSwipe stateAB SwipeDirection.LEFT 2).studyQueue
        = [cardB].take (min 1 7) ++ ({ cardA with isRetry := true } : StudyCard) :: [cardB].drop (min 1 7)
    ∧ (handleCardSwipe stateAB SwipeDirection.LEFT 2).sessionHistory
        = stateAB.sessionHistory ++
            [{ card := cardA, action := SwipeDirection.LEFT, insertedAt := some (min 1 7) }] :=
  ⟨⟨by decide, rfl⟩,
    (reinsertion_positions stateAB cardA [cardB] 2 (by decide) rfl).1.1,
    (reinsertion_positions stateAB cardA [cardB] 2 (by decide) rfl).1.2⟩

/-- Claim C4: on a non-empty queue, swipe RIGHT strictly decreases the
queue length by one, increments the correct-count and does not re-insert
the swiped card (the queue becomes exactly the old tail); swipe LEFT and
swipe UP leave the queue length and the correct-count unchanged; every
swipe appends exactly one transcript entry. -/
theorem swipe_effects (s : SessionState) (c : StudyCard) (rest : List StudyCard) (r : Nat)
    (hq : s.studyQueue = c :: rest) :
    ((handleCardSwipe s SwipeDirection.RIGHT r).studyQueue.length + 1 = s.studyQueue.length
      ∧ (handleCardSwipe s SwipeDirection.RIGHT r).correctCount = s.correctCount + 1
      ∧ (handleCardSwipe s SwipeDirection.RIGHT r).studyQueue = rest)
    ∧ ((handleCardSwipe s SwipeDirection.LEFT r).studyQueue.length = s.studyQueue.length
      ∧ (handleCardSwipe s SwipeDirection.LEFT r).correctCount = s.correctCount)
    ∧ ((handleCardSwipe s SwipeDirection.UP r).studyQueue.length = s.studyQueue.length
      ∧ (handleCardSwipe s SwipeDirection.UP r).correctCount = s.correctCount)
    ∧ (∀ dir, (handleCardSwipe s dir r).sessionHistory.length
        = s.sessionHistory.length + 1) := by
  obtain ⟨queue, hist, cc⟩ := s
  simp only at hq
  subst hq
  refine ⟨⟨rfl, rfl, rfl⟩, ⟨?_, rfl⟩, ⟨?_, rfl⟩, ?_⟩
  · simp only [handleCardSwipe, List.length_cons]
    rw [List.length_insertIdx _ _ (Nat.min_le_left _ _)]
  · simp only [handleCardSwipe, List.length_cons]
    rw [List.length_insertIdx _ _ (Nat.min_le_left _ _)]
  · intro dir
    cases dir <;> simp [handleCardSwipe]

/-- Witness for C4 at a concrete two-card queue. -/
theorem swipe_effects_witness :
    stateAB.studyQueue = cardA :: [cardB]
    ∧ (handleCardSwipe stateAB SwipeDirection.RIGHT 0).studyQueue.length + 1
        = stateAB.studyQueue.length
    ∧ (handleCardSwipe stateAB SwipeDirection.LEFT 0).studyQueue.length
        = stateAB.studyQueue.length
    ∧ (handleCardSwipe stateAB SwipeDirection.UP 0).sessionHistory.length
        = stateAB.sessionHistory.length + 1 :=
  ⟨rfl,
    (swipe_effects stateAB cardA [cardB] 0 rfl).1.1,
    (swipe_effects stateAB cardA [cardB] 0 rfl).2.1.1,
    (swipe_effects stateAB cardA [cardB] 0 rfl).2.2.2 SwipeDirection.UP⟩

/-- Claim C1 counterexample: in a session whose queue holds two cards
sharing one id, a single LEFT swipe followed by a single undo does not
restore the state — undo removes the re-inserted copy by id lookup and
`findIndex` hits the other card with the same id first, so the queue ends
as `[cardA, retry copy of cardA]` instead of `[cardA, cardA]`. -/
theorem undo_not_inverse_counterexample :
    undoN (swipeSeq dupState [(SwipeDirection.LEFT, 0)]) 1 ≠ dupState := by decide

/-- Claim C1 (amended): provided the queue's card ids are pairwise
distinct, undo is a true inverse of swipe — any sequence of swipes, each
performed on a non-empty queue, followed by an equal-length sequence of
undos restores the queue, the transcript and the correct-count exactly.
A single undo pops the last transcript entry, decrements the correct-count
(floored at 0) iff the popped action was RIGHT, removes the re-inserted
copy from the queue by id lookup iff the entry carries an `insertedAt`,
and pushes the original card back to the front; undo of an empty
transcript changes nothing. -/
theorem undo_inverts_swipes :
    (∀ (s : SessionState) (l : List (SwipeDirection × Nat)),
        (s.studyQueue.map (fun x => x.id)).Nodup →
        nonemptyRun s l = true →
        undoN (swipeSeq s l) l.length = s)
    ∧ (∀ s : SessionState, s.sessionHistory = [] → handleUndo s = s)
    ∧ (∀ (s : SessionState) (h : List SessionEntry) (e : SessionEntry),
        s.sessionHistory = h ++ [e] →
        (handleUndo s).sessionHistory = h
        ∧ (handleUndo s).correctCount
            = (if e.action = SwipeDirection.RIGHT then s.correctCount - 1 else s.correctCount)
        ∧ (handleUndo s).studyQueue
            = e.card :: (match e.insertedAt with
                | some _ => s.studyQueue.eraseP (fun x => x.id == e.card.id)
                | none => s.studyQueue)) := by
  refine ⟨fun s l hnd hne => undoN_swipeSeq l s hne hnd, ?_, ?_⟩
  · intro s h
    simp [handleUndo, h]
  · intro s h e hhist
    unfold handleUndo
    rw [hhist, List.getLast?_concat]
    refine ⟨?_, ?_, ?_⟩
    · show (h ++ [e]).dropLast = h
      simp
    · show (match e.action with
          | SwipeDirection.RIGHT => s.correctCount - 1
          | _ => s.correctCount)
        = (if e.action = SwipeDirection.RIGHT then s.correctCount - 1 else s.correctCount)
      cases hact : e.action <;> simp
    · rfl

/-- Witness for C1: a RIGHT, LEFT, UP run on a two-card queue with
distinct ids, undone by three undos, restores the initial state. -/
theorem undo_inverts_swipes_witness :
    (stateAB.studyQueue.map (fun x => x.id)).Nodup
    ∧ nonemptyRun stateAB
        [(SwipeDirection.RIGHT, 0), (SwipeDirection.LEFT, 2), (SwipeDirection.UP, 7)] = true
    ∧ undoN (swipeSeq stateAB
        [(SwipeDirection.RIGHT, 0), (SwipeDirection.LEFT, 2), (SwipeDirection.UP, 7)]) 3
      = stateAB :=
  ⟨by decide, by decide,
    undo_inverts_swipes.1 stateAB
      [(SwipeDirection.RIGHT, 0), (SwipeDirection.LEFT, 2), (SwipeDirection.UP, 7)]
      (by decide) (by decide)⟩

/-- Claim C2: merging a bundle twice yields the same deck, folder and
history collections as merging it once; an incoming deck whose id already
exists in the growing list is dropped and is appended otherwise; an
incoming course whose id already exists replaces the first local record
with that id in place (last-import-wins) and is appended otherwise. -/
theorem merge_idempotence :
    (∀ (store : Store) (nd : List Deck) (nc : List Course)
        (nh : List HistoryEntry) (nf : List Folder),
        (mergeData (mergeData store nd nc nh nf) nd nc nh nf).decks
            = (mergeData store nd nc nh nf).decks
        ∧ (mergeData (mergeData store nd nc nh nf) nd nc nh nf).folders
            = (mergeData store nd nc nh nf).folders
        ∧ (mergeData (mergeData store nd nc nh nf) nd nc nh nf).history
            = (mergeData store nd nc nh nf).history)
    ∧ (∀ (L : List Deck) (d : Deck),
        (L.any (fun e => e.id == d.id) = true → dedupMerge Deck.id L [d] = L)
        ∧ (L.any (fun e => e.id == d.id) = false → dedupMerge Deck.id L [d] = L ++ [d]))
    ∧ (∀ (L : List Course) (c : Course),
        (L.any (fun e => e.id == c.id) = true →
          ∃ i, ∃ hi : i < L.length,
            (L.get ⟨i, hi⟩).id = c.id
            ∧ overwriteMerge Course.id L [c] = L.set i c
            ∧ ∀ j, ∀ hj : j < L.length, j < i → (L.get ⟨j, hj⟩).id ≠ c.id)
        ∧ (L.any (fun e => e.id == c.id) = false →
          overwriteMerge Course.id L [c] = L ++ [c])) := by
  refine ⟨?_, ?_, ?_⟩
  · intro store nd nc nh nf
    exact ⟨dedupMerge_idem Deck.id store.decks nd,
      dedupMerge_idem Folder.id store.folders nf,
      dedupMerge_idem HistoryEntry.id store.history nh⟩
  · intro L d
    constructor
    · intro h
      show dedupStep Deck.id L d = L
      unfold dedupStep
      rw [if_pos h]
    · intro h
      show dedupStep Deck.id L d = L ++ [d]
      unfold dedupStep
      rw [if_neg (by rw [h]; exact Bool.false_ne_true)]
  · intro L c
    constructor
    · intro h
      exact overwriteStep_of_found Course.id L c h
    · intro h
      exact overwriteStep_of_not_found Course.id L c h

/-- Witness for C2: the colliding deck `deckA2` is dropped by a re-merge
and the colliding course `courseA2` overwrites `courseA` in place. -/
theorem merge_idempotence_witness :
    ([deckA].any (fun e => e.id == deckA2.id) = true
      ∧ dedupMerge Deck.id [deckA] [deckA2] = [deckA])
    ∧ ([courseA].any (fun e => e.id == courseA2.id) = true
      ∧ ∃ i, ∃ hi : i < ([courseA] : List Course).length,
          ((([courseA] : List Course).get ⟨i, hi⟩).id = courseA2.id
            ∧ overwriteMerge Course.id [courseA] [courseA2]
                = ([courseA] : List Course).set i courseA2
            ∧ ∀ j, ∀ hj : j < ([courseA] : List Course).length, j < i →
                ((([courseA] : List Course).get ⟨j, hj⟩).id ≠ courseA2.id))) :=
  ⟨⟨by decide, (merge_idempotence.2.1 [deckA] deckA2).1 (by decide)⟩,
    ⟨by decide, (merge_idempotence.2.2 [courseA] courseA2).1 (by decide)⟩⟩

/-- Claim C5 counterexample: a full-profile merge does not assign a fresh
id to a colliding record — the incoming deck `deckA2`, whose id collides
with the local `deckA`, is dropped outright by `mergeData`, so no record
with its content survives under any id. -/
theorem import_fresh_id_counterexample :
    deckA2.id = deckA.id
    ∧ deckA2.name ≠ deckA.name
    ∧ (mergeData storeA [deckA2] [] [] []).decks = [deckA]
    ∧ ¬ ∃ d ∈ (mergeData storeA [deckA2] [] [] []).decks, d.name = deckA2.name := by
  decide

/-- Claim C5 (amended): only the single-deck import path assigns a fresh
id on collision — when the imported deck's id already occurs among the
local decks, `handleImportDeck` appends it under the fresh id (and the
active user as author), otherwise it is appended with its own id; the
profile merge instead drops a colliding incoming deck. -/
theorem import_fresh_id :
    (∀ (decks : List Deck) (u : User) (imported : Deck) (freshId : String),
        imported.id ≠ "" → imported.name ≠ "" →
        (decks.any (fun d => d.id == imported.id) = true →
            handleImportDeck decks (some u) imported freshId
              = decks ++ [{ imported with id := freshId, authorId := u.id }])
        ∧ (decks.any (fun d => d.id == imported.id) = false →
            handleImportDeck decks (some u) imported freshId
              = decks ++ [{ imported with authorId := u.id }]))
    ∧ (∀ (L : List Deck) (d : Deck),
        L.any (fun e => e.id == d.id) = true → dedupMerge Deck.id L [d] = L) := by
  constructor
  · intro decks u imported freshId hid hname
    have hguard : (imported.id == "" || imported.name == "") = false := by
      rw [Bool.or_eq_false_iff]
      exact ⟨beq_eq_false_iff_ne.mpr hid, beq_eq_false_iff_ne.mpr hname⟩
    constructor
    · intro hcol
      unfold handleImportDeck
      rw [if_neg (by rw [hguard]; exact Bool.false_ne_true), if_pos hcol]
    · intro hcol
      unfold handleImportDeck
      rw [if_neg (by rw [hguard]; exact Bool.false_ne_true),
        if_neg (by rw [hcol]; exact Bool.false_ne_true)]
  · intro L d h
    show dedupStep Deck.id L d = L
    unfold dedupStep
    rw [if_pos h]

/-- Witness for C5: importing `deckA2` over `[deckA]` re-identifies it as
`fresh-1`, while the profile merge of the same deck drops it. -/
theorem import_fresh_id_witness :
    (deckA2.id ≠ "" ∧ deckA2.name ≠ ""
      ∧ [deckA].any (fun d => d.id == deckA2.id) = true
      ∧ handleImportDeck [deckA] (some userU) deckA2 "fresh-1"
          = [deckA] ++ [{ deckA2 with id := "fresh-1", authorId := userU.id }])
    ∧ dedupMerge Deck.id [deckA] [deckA2] = [deckA] :=
  ⟨⟨by decide, by decide, by decide,
      (import_fresh_id.1 [deckA] userU deckA2 "fresh-1" (by decide) (by decide)).1 (by decide)⟩,
    import_fresh_id.2 [deckA] deckA2 (by decide)⟩

/-- Claim C6: a shared-course import with an active user appends the
user's id to the incoming course's memberIds when the user is neither the
author nor already a member, and leaves the record untouched when the
user is the author or already a member. -/
theorem shared_course_auto_join :
    (∀ (u : User) (incoming : Course),
        u.id ∉ incoming.memberIds → incoming.authorId ≠ u.id →
        prepareSharedCourseImport (some u) incoming
          = { incoming with memberIds := incoming.memberIds ++ [u.id] })
    ∧ (∀ (u : User) (incoming : Course),
        (u.id ∈ incoming.memberIds ∨ incoming.authorId = u.id) →
        prepareSharedCourseImport (some u) incoming = incoming) := by
  constructor
  · intro u incoming hmem hauthor
    show (if (!incoming.memberIds.contains u.id && incoming.authorId != u.id) = true
        then ({ incoming with memberIds := incoming.memberIds ++ [u.id] } : Course)
        else incoming)
      = { incoming with memberIds := incoming.memberIds ++ [u.id] }
    rw [if_pos]
    rw [Bool.and_eq_true, Bool.not_eq_true', bne_iff_ne]
    refine ⟨?_, hauthor⟩
    simpa using hmem
  · intro u incoming h
    show (if (!incoming.memberIds.contains u.id && incoming.authorId != u.id) = true
        then ({ incoming with memberIds := incoming.memberIds ++ [u.id] } : Course)
        else incoming)
      = incoming
    rw [if_neg]
    rw [Bool.and_eq_true, Bool.not_eq_true', bne_iff_ne]
    rcases h with h | h
    · intro hc
      rw [show incoming.memberIds.contains u.id = true by simpa using h] at hc
      cases hc.1
    · exact fun hc => hc.2 h

/-- Witness for C6: the sample user joins a shared course they are not
part of, and an import by an existing member changes nothing. -/
theorem shared_course_auto_join_witness :
    (userU.id ∉ courseA.memberIds ∧ courseA.authorId ≠ userU.id
      ∧ prepareSharedCourseImport (some userU) courseA
          = { courseA with memberIds := courseA.memberIds ++ [userU.id] })
    ∧ ("u2" ∈ courseA2.memberIds
      ∧ prepareSharedCourseImport
          (some { id := "u2", name := "U Two", email := "" }) courseA2 = courseA2) :=
  ⟨⟨by decide, by decide,
      shared_course_auto_join.1 userU courseA (by decide) (by decide)⟩,
    ⟨by decide,
      shared_course_auto_join.2 { id := "u2", name := "U Two", email := "" } courseA2
        (Or.inl (by decide))⟩⟩

/-- Claim C7: deleting a deck removes it from the deck collection (no
other deck is touched) and removes exactly that id from every course's and
every folder's deckIds, leaving every other field and every other deckId
entry (with multiplicity) unchanged, pointwise over both collections. -/
theorem deleteDeck_integrity (store : Store) (deckId : String) :
    ((handleDeleteDeck store deckId).decks.all (fun d => d.id != deckId) = true)
    ∧ (∀ d ∈ store.decks, d.id ≠ deckId → d ∈ (handleDeleteDeck store deckId).decks)
    ∧ List.Forall₂
        (fun (c c2 : Course) =>
          c2.id = c.id ∧ c2.name = c.name ∧ c2.description = c.description
            ∧ c2.authorId = c.authorId ∧ c2.memberIds = c.memberIds
            ∧ c2.createdAt = c.createdAt ∧ deckId ∉ c2.deckIds
            ∧ ∀ x, x ≠ deckId → c2.deckIds.count x = c.deckIds.count x)
        store.courses (handleDeleteDeck store deckId).courses
    ∧ List.Forall₂
        (fun (f f2 : Folder) =>
          f2.id = f.id ∧ f2.name = f.name ∧ f2.authorId = f.authorId
            ∧ f2.createdAt = f.createdAt ∧ deckId ∉ f2.deckIds
            ∧ ∀ x, x ≠ deckId → f2.deckIds.count x = f.deckIds.count x)
        store.folders (handleDeleteDeck store deckId).folders
    ∧ (handleDeleteDeck store deckId).history = store.history := by
  refine ⟨?_, ?_, ?_, ?_, rfl⟩
  · rw [List.all_eq_true]
    intro d hd
    exact (List.mem_filter.mp hd).2
  · intro d hd hne
    exact List.mem_filter.mpr ⟨hd, bne_iff_ne.mpr hne⟩
  · show List.Forall₂ _ store.courses (store.courses.map
      (fun c : Course =>
        ({ c with deckIds := c.deckIds.filter (fun i => i != deckId) } : Course)))
    rw [List.forall₂_map_right_iff, List.forall₂_same]
    intro c _
    refine ⟨rfl, rfl, rfl, rfl, rfl, rfl, ?_, ?_⟩
    · intro hmem
      have := (List.mem_filter.mp hmem).2
      simp at this
    · intro x hx
      exact List.count_filter (bne_iff_ne.mpr hx)
  · show List.Forall₂ _ store.folders (store.folders.map
      (fun f : Folder =>
        ({ f with deckIds := f.deckIds.filter (fun i => i != deckId) } : Folder)))
    rw [List.forall₂_map_right_iff, List.forall₂_same]
    intro f _
    refine ⟨rfl, rfl, rfl, rfl, ?_, ?_⟩
    · intro hmem
      have := (List.mem_filter.mp hmem).2
      simp at this
    · intro x hx
      exact List.count_filter (bne_iff_ne.mpr hx)

/-- Witness for C7: deleting `d1` from the sample store keeps `deckB`
when present and the course pointwise relation holds at the sample. -/
theorem deleteDeck_integrity_witness :
    (deckB ∈ ({ storeA with decks := [deckA, deckB] } : Store).decks ∧ deckB.id ≠ "d1"
      ∧ deckB ∈ (handleDeleteDeck { storeA with decks := [deckA, deckB] } "d1").decks)
    ∧ (handleDeleteDeck { storeA with decks := [deckA, deckB] } "d1").decks.all
        (fun d => d.id != "d1") = true :=
  ⟨⟨by decide, by decide,
      (deleteDeck_integrity { storeA with decks := [deckA, deckB] } "d1").2.1 deckB
        (by decide) (by decide)⟩,
    (deleteDeck_integrity { storeA with decks := [deckA, deckB] } "d1").1⟩

/-- Claim C10: merging never removes local data — the merged deck, folder
and history collections extend the local ones (so every pre-existing
record survives unchanged, in place), the id sets of all four collections
only grow, and a pre-existing course survives unchanged whenever no
incoming course carries its id. -/
theorem merge_preserves_local (store : Store) (nd : List Deck) (nc : List Course)
    (nh : List HistoryEntry) (nf : List Folder) :
    (∃ t, (mergeData store nd nc nh nf).decks = store.decks ++ t)
    ∧ (∃ t, (mergeData store nd nc nh nf).folders = store.folders ++ t)
    ∧ (∃ t, (mergeData store nd nc nh nf).history = store.history ++ t)
    ∧ (∀ x ∈ store.decks.map Deck.id,
        x ∈ (mergeData store nd nc nh nf).decks.map Deck.id)
    ∧ (∀ x ∈ store.courses.map Course.id,
        x ∈ (mergeData store nd nc nh nf).courses.map Course.id)
    ∧ (∀ x ∈ store.folders.map Folder.id,
        x ∈ (mergeData store nd nc nh nf).folders.map Folder.id)
    ∧ (∀ x ∈ store.history.map HistoryEntry.id,
        x ∈ (mergeData store nd nc nh nf).history.map HistoryEntry.id)
    ∧ (∀ c ∈ store.courses, (∀ n ∈ nc, n.id ≠ c.id) →
        c ∈ (mergeData store nd nc nh nf).courses) := by
  obtain ⟨t1, h1⟩ := dedupMerge_append Deck.id nd store.decks
  obtain ⟨t2, h2⟩ := dedupMerge_append Folder.id nf store.folders
  obtain ⟨t3, h3⟩ := dedupMerge_append HistoryEntry.id nh store.history
  refine ⟨⟨t1, h1⟩, ⟨t2, h2⟩, ⟨t3, h3⟩, ?_, ?_, ?_, ?_, ?_⟩
  · intro x hx
    show x ∈ (dedupMerge Deck.id store.decks nd).map Deck.id
    rw [h1, List.map_append]
    exact List.mem_append_left _ hx
  · intro x hx
    exact mem_ids_overwriteMerge Course.id nc store.courses x hx
  · intro x hx
    show x ∈ (dedupMerge Folder.id store.folders nf).map Folder.id
    rw [h2, List.map_append]
    exact List.mem_append_left _ hx
  · intro x hx
    show x ∈ (dedupMerge HistoryEntry.id store.history nh).map HistoryEntry.id
    rw [h3, List.map_append]
    exact List.mem_append_left _ hx
  · intro c hc hno
    exact mem_overwriteMerge_of_not_incoming Course.id nc store.courses c hc hno

/-- Witness for C10: merging a colliding deck and a fresh course into the
sample store keeps the local deck id and the untouched local course. -/
theorem merge_preserves_local_witness :
    ("d1" ∈ storeA.decks.map Deck.id
      ∧ "d1" ∈ (mergeData storeA [deckA2] [] [] []).decks.map Deck.id)
    ∧ (courseA ∈ storeA.courses
      ∧ courseA ∈ (mergeData storeA [deckA2] [] [] []).courses) :=
  ⟨⟨by decide,
      (merge_preserves_local storeA [deckA2] [] [] []).2.2.2.1 "d1" (by decide)⟩,
    ⟨by decide,
      (merge_preserves_local storeA [deckA2] [] [] []).2.2.2.2.2.2.2 courseA (by decide)
        (by intro n hn; cases hn)⟩⟩

end FixLearn
